import Mathlib

/-!
Verification development for the track-selection state machine of the
Audacity excerpt (lib-track-selection/SelectionState and
effects/Generator.cpp).

The repository excerpt ships only the header `SelectionState.h` for the
selection core; the member-function bodies are not part of the excerpt,
so the operations of `SelectionState` and `SelectionStateChanger` are
modelled here from the specification's description of their behaviour.
`Generator.cpp` is present in full and `Generator.Process` is embedded
from that source.

Modelling conventions:
- a `Track` is a record of its identity, leader designation, linked-group
  membership and selected flag; a `TrackList` is the ordered list of
  tracks (insertion order is the canonical list order);
- the C++ `std::weak_ptr<Track>` last-picked reference is modelled as an
  optional track identity, resolved against the current track list: a
  destroyed track is one whose identity no longer occurs in the list, and
  resolution then yields `none` (lock-or-fail semantics);
- every mutating C++ member function becomes a pure function returning
  the updated `SelectionState` and `TrackList`.
-/

/-- A track of the track list: identity, leader designation, linked-group
membership and the selected flag.  Linked-group membership is modelled by
a group identifier; the tracks of one linked group share `group`. -/
structure Track where
  id : Nat
  leader : Bool
  group : Nat
  selected : Bool
deriving DecidableEq

/-- Ordered list of tracks, in canonical display order. -/
abbrev TrackList := List Track

/-- State relating to the set of selected tracks: the weak reference to
the most recently explicitly picked track, modelled as an optional track
identity. -/
structure SelectionState where
  mLastPickedTrack : Option Nat
deriving DecidableEq

/-- Resolve (lock) the weak last-picked reference against a track list:
`some` of the referenced track when it is still alive (its identity
occurs in the list), `none` otherwise. -/
def resolveLastPicked (st : SelectionState) (tracks : TrackList) :
    Option Track :=
  st.mLastPickedTrack.bind fun i => tracks.find? fun t => t.id == i

/-- Modelled from the spec: `SelectionState::SelectTrack` (body missing
from the excerpt).  Sets the selected flag of `track` and, transitively,
of every other member of the track's linked group to `selected`; when
`updateLastPicked` is true and `selected` is true, `lastPickedTrack` is
set to `track`, otherwise it is left unchanged.  Precondition (not
defended internally): `track.leader = true`. -/
def SelectionState.SelectTrack (st : SelectionState) (tracks : TrackList)
    (track : Track) (selected updateLastPicked : Bool) :
    SelectionState × TrackList :=
  (if updateLastPicked && selected then
      { mLastPickedTrack := some track.id }
    else st,
   tracks.map fun t =>
     if t.group == track.group then { t with selected := selected } else t)

/-- Position of the track with identity `i` in the list (list order). -/
def indexOfId (tracks : TrackList) (i : Nat) : Nat :=
  tracks.findIdx fun t => t.id == i

/-- Whether some leader track positioned in the inclusive range
`lo..hi` of the list belongs to linked group `g`. -/
def inRangeGroup (tracks : TrackList) (lo hi g : Nat) : Bool :=
  tracks.enum.any fun p =>
    decide (lo ≤ p.1) && decide (p.1 ≤ hi) && p.2.leader && p.2.group == g

/-- Modelled from the spec: `SelectionState::SelectRangeOfTracks` (body
missing from the excerpt).  The two ends may be given in either order;
every leader track whose position lies in the inclusive range between
the ends' positions is selected together with its whole linked group;
nothing is deselected.  `lastPickedTrack` is not touched. -/
def SelectionState.SelectRangeOfTracks (st : SelectionState)
    (tracks : TrackList) (sTrack eTrack : Track) :
    SelectionState × TrackList :=
  (st,
   tracks.map fun t =>
     if inRangeGroup tracks
         (min (indexOfId tracks sTrack.id) (indexOfId tracks eTrack.id))
         (max (indexOfId tracks sTrack.id) (indexOfId tracks eTrack.id))
         t.group
     then { t with selected := true } else t)

/-- Modelled from the spec: `SelectionState::SelectNone` (body missing
from the excerpt).  Deselects every track unconditionally and does not
touch `lastPickedTrack`. -/
def SelectionState.SelectNone (st : SelectionState) (tracks : TrackList) :
    SelectionState × TrackList :=
  (st, tracks.map fun t => { t with selected := false })

/-- Modelled from the spec: `SelectionState::ChangeSelectionOnShiftClick`
(body missing from the excerpt).  If the remembered last-picked track is
alive, clear all selection and select the inclusive range between it and
`track`, leaving `lastPickedTrack` unchanged; otherwise degrade to a
plain click: clear all selection, select just `track` (with its group)
and make it the new last-picked track. -/
def SelectionState.ChangeSelectionOnShiftClick (st : SelectionState)
    (tracks : TrackList) (track : Track) : SelectionState × TrackList :=
  match resolveLastPicked st tracks with
  | some last =>
      SelectionState.SelectRangeOfTracks st
        (SelectionState.SelectNone st tracks).2 last track
  | none =>
      SelectionState.SelectTrack st
        (SelectionState.SelectNone st tracks).2 track true true

/-- Modelled from the spec: `SelectionState::HandleListSelection` (body
missing from the excerpt).  Dispatch in priority order: shift delegates
to `ChangeSelectionOnShiftClick`; else ctrl toggles the clicked track's
selection (with its group, per the group rule) and updates the
last-picked anchor when toggled on; else a plain click deselects all and
selects exactly the clicked track's group, making it the last-picked
anchor.  The `syncLocked` flag gates collaborator side effects outside
this state machine and does not alter selected flags here; the view-info
time-range side effect is out of scope of this model.  Precondition:
`track.leader = true`. -/
def SelectionState.HandleListSelection (st : SelectionState)
    (tracks : TrackList) (track : Track)
    (shift ctrl _syncLocked : Bool) : SelectionState × TrackList :=
  if shift then
    SelectionState.ChangeSelectionOnShiftClick st tracks track
  else if ctrl then
    SelectionState.SelectTrack st tracks track (!track.selected) true
  else
    SelectionState.SelectTrack st
      (SelectionState.SelectNone st tracks).2 track true true

/-- Modelled from the spec: the `SelectionStateChanger` transaction.
It captures at construction the last-picked reference and the positional
snapshot of every track's selected flag, and remembers whether the
transaction was committed. -/
structure SelectionStateChanger where
  committed : Bool
  mInitialLastPickedTrack : Option Nat
  mInitialTrackSelection : List Bool
deriving DecidableEq

/-- Modelled from the spec: the `SelectionStateChanger` constructor,
capturing the snapshot of `lastPickedTrack` and of every track's
selected flag in list order. -/
def SelectionStateChanger.make (st : SelectionState) (tracks : TrackList) :
    SelectionStateChanger :=
  { committed := false
    mInitialLastPickedTrack := st.mLastPickedTrack
    mInitialTrackSelection := tracks.map Track.selected }

/-- Modelled from the spec: `SelectionStateChanger::Commit` marks the
transaction as finalized so that destruction performs no rollback. -/
def SelectionStateChanger.Commit (ch : SelectionStateChanger) :
    SelectionStateChanger :=
  { ch with committed := true }

/-- Positional reassignment of selected flags from a snapshot, in list
order (the rollback loop of the destructor). -/
def restoreSelection : TrackList → List Bool → TrackList
  | [], _ => []
  | ts, [] => ts
  | t :: ts, b :: bs => { t with selected := b } :: restoreSelection ts bs

/-- Modelled from the spec: the `SelectionStateChanger` destructor.  If
the transaction was not committed, restore `lastPickedTrack` and every
track's selected flag from the positional snapshot; otherwise do
nothing. -/
def SelectionStateChanger.destruct (ch : SelectionStateChanger)
    (st : SelectionState) (tracks : TrackList) :
    SelectionState × TrackList :=
  if ch.committed then (st, tracks)
  else
    ({ mLastPickedTrack := ch.mInitialLastPickedTrack },
     restoreSelection tracks ch.mInitialTrackSelection)

/-- A selection mutation: one call of a `SelectionState` operation, as
performed between construction and destruction of a
`SelectionStateChanger`. -/
inductive SelOp where
  | selectTrack (track : Track) (selected updateLastPicked : Bool)
  | selectRange (sTrack eTrack : Track)
  | selectNone
  | shiftClick (track : Track)
  | listSelection (track : Track) (shift ctrl syncLocked : Bool)
deriving DecidableEq

/-- Apply one selection mutation to a selection state and track list. -/
def applyOp (op : SelOp) (s : SelectionState × TrackList) :
    SelectionState × TrackList :=
  match op with
  | .selectTrack track v u => SelectionState.SelectTrack s.1 s.2 track v u
  | .selectRange a b => SelectionState.SelectRangeOfTracks s.1 s.2 a b
  | .selectNone => SelectionState.SelectNone s.1 s.2
  | .shiftClick track => SelectionState.ChangeSelectionOnShiftClick s.1 s.2 track
  | .listSelection track sh c sl =>
      SelectionState.HandleListSelection s.1 s.2 track sh c sl

/-- Apply a sequence of selection mutations in order. -/
def applyOps (ops : List SelOp) (s : SelectionState × TrackList) :
    SelectionState × TrackList :=
  ops.foldl (fun s op => applyOp op s) s

/-!
Embedding of `Generator::Process` from `src/effects/Generator.cpp`.

The audio content of a wave track is abstracted to a value of type `Nat`
(a content version); the external collaborators that the visitor body
calls are abstracted to oracle functions supplied as parameters:
- `roomFail t` is the outcome of the not-enough-room test
  (`track.IsEmpty ... && !track.IsEmpty ...`) on track `t`;
- `genOk n t` is the success of `GenerateTrack` on track `t` with track
  counter `n`, and `genContent n t` the content the track holds after
  `tmp->Flush()` and `track.ClearAndPaste` of the generated data;
- `clearContent c` is the content after `track.Clear(mT0, mT1)` (the
  zero-duration branch);
- `syncAdjContent c` is the content after `t.SyncLockAdjust(...)`.
-/

/-- A track as seen by `Generator::Process`: whether it is a wave track,
its selected flag, whether `SyncLock::IsSyncLockSelected` holds of it,
and its abstracted audio content. -/
structure GTrack where
  isWave : Bool
  selected : Bool
  syncLockSel : Bool
  content : Nat
deriving DecidableEq

/-- The parameters and external-collaborator oracles of one run of
`Generator::Process`. -/
structure GenParams where
  editClipCanMove : Bool
  durationPos : Bool
  roomFail : GTrack → Bool
  genOk : Nat → GTrack → Bool
  genContent : Nat → GTrack → Nat
  clearContent : Nat → Nat
  syncAdjContent : Nat → Nat

/-- One visit of the `VisitWhile` visitor of `Generator::Process` on one
track: the wave-track handler runs when the track is a selected wave
track (room check, then generation or clearing, advancing the track
counter on success and clearing the good flag on failure); any other
track falls through to the generic handler, which applies the sync-lock
adjustment exactly when the track is sync-lock selected.  Returns the
updated track, the good flag and the updated track counter. -/
def visitTrack (ps : GenParams) (ntrack : Nat) (t : GTrack) :
    GTrack × Bool × Nat :=
  if t.isWave && t.selected then
    if !ps.editClipCanMove && ps.roomFail t then
      (t, false, ntrack)
    else if ps.durationPos then
      if ps.genOk ntrack t then
        ({ t with content := ps.genContent ntrack t }, true, ntrack + 1)
      else (t, false, ntrack)
    else
      ({ t with content := ps.clearContent t.content }, true, ntrack + 1)
  else
    (if t.syncLockSel then { t with content := ps.syncAdjContent t.content }
     else t,
     true, ntrack)

/-- The `VisitWhile(bGoodResult, ...)` loop of `Generator::Process`:
tracks are visited in list order while the good flag holds; once it is
cleared the remaining tracks are left untouched. -/
def processTracks (ps : GenParams) :
    List GTrack → Bool → Nat → List GTrack × Bool
  | [], good, _ => ([], good)
  | t :: rest, good, ntrack =>
    if good then
      ((visitTrack ps ntrack t).1 ::
        (processTracks ps rest (visitTrack ps ntrack t).2.1
          (visitTrack ps ntrack t).2.2).1,
       (processTracks ps rest (visitTrack ps ntrack t).2.1
          (visitTrack ps ntrack t).2.2).2)
    else (t :: rest, good)

/-- `Generator::Process` embedded from `src/effects/Generator.cpp`: the
visitor runs over the output copy of the track list, and
`outputs.Commit()` publishes the modified tracks only when the whole run
succeeded, otherwise the original tracks stand. -/
def Generator.Process (ps : GenParams) (tracks : List GTrack) :
    List GTrack × Bool :=
  (if (processTracks ps tracks true 0).2 then (processTracks ps tracks true 0).1
   else tracks,
   (processTracks ps tracks true 0).2)

/-!
Helper notions and lemmas.  Two track lists are compared up to selected
flags by erasing the flag pointwise: every selection operation changes
only selected flags, so it preserves this erasure.
-/

/-- Erase the selected flag of a track. -/
def eraseSel (t : Track) : Track := { t with selected := false }

lemma map_eraseSel_map (f : Track → Track)
    (hf : ∀ t, eraseSel (f t) = eraseSel t) (l : TrackList) :
    (l.map f).map eraseSel = l.map eraseSel := by
  induction l with
  | nil => rfl
  | cons a l ih => simp only [List.map_cons, hf, ih]

lemma sameShape_selectTrack (st : SelectionState) (tracks : TrackList)
    (track : Track) (v u : Bool) :
    ((SelectionState.SelectTrack st tracks track v u).2).map eraseSel
      = tracks.map eraseSel := by
  exact map_eraseSel_map _ (fun t => by unfold eraseSel; split <;> rfl) tracks

lemma sameShape_selectRange (st : SelectionState) (tracks : TrackList)
    (a b : Track) :
    ((SelectionState.SelectRangeOfTracks st tracks a b).2).map eraseSel
      = tracks.map eraseSel := by
  exact map_eraseSel_map _ (fun t => by unfold eraseSel; split <;> rfl) tracks

lemma sameShape_selectNone (st : SelectionState) (tracks : TrackList) :
    ((SelectionState.SelectNone st tracks).2).map eraseSel
      = tracks.map eraseSel := by
  exact map_eraseSel_map (fun t => { t with selected := false })
    (fun t => rfl) tracks

lemma sameShape_shiftClick (st : SelectionState) (tracks : TrackList)
    (track : Track) :
    ((SelectionState.ChangeSelectionOnShiftClick st tracks track).2).map eraseSel
      = tracks.map eraseSel := by
  unfold SelectionState.ChangeSelectionOnShiftClick
  cases resolveLastPicked st tracks with
  | none =>
      simp only
      rw [sameShape_selectTrack, sameShape_selectNone]
  | some last =>
      simp only
      rw [sameShape_selectRange, sameShape_selectNone]

lemma sameShape_listSelection (st : SelectionState) (tracks : TrackList)
    (track : Track) (sh c sl : Bool) :
    ((SelectionState.HandleListSelection st tracks track sh c sl).2).map eraseSel
      = tracks.map eraseSel := by
  unfold SelectionState.HandleListSelection
  by_cases hsh : sh = true
  · rw [if_pos hsh]; exact sameShape_shiftClick st tracks track
  · rw [if_neg hsh]
    by_cases hc : c = true
    · rw [if_pos hc]; exact sameShape_selectTrack st tracks track _ _
    · rw [if_neg hc]
      rw [sameShape_selectTrack, sameShape_selectNone]

lemma sameShape_applyOp (op : SelOp) (s : SelectionState × TrackList) :
    ((applyOp op s).2).map eraseSel = s.2.map eraseSel := by
  cases op with
  | selectTrack track v u => exact sameShape_selectTrack s.1 s.2 track v u
  | selectRange a b => exact sameShape_selectRange s.1 s.2 a b
  | selectNone => exact sameShape_selectNone s.1 s.2
  | shiftClick track => exact sameShape_shiftClick s.1 s.2 track
  | listSelection track sh c sl =>
      exact sameShape_listSelection s.1 s.2 track sh c sl

lemma sameShape_applyOps (ops : List SelOp) (s : SelectionState × TrackList) :
    ((applyOps ops s).2).map eraseSel = s.2.map eraseSel := by
  induction ops generalizing s with
  | nil => rfl
  | cons op ops ih =>
      unfold applyOps
      rw [List.foldl_cons]
      have := ih (applyOp op s)
      unfold applyOps at this
      rw [this, sameShape_applyOp]

lemma restoreSelection_restores (tracks : TrackList) :
    ∀ tracks' : TrackList, tracks'.map eraseSel = tracks.map eraseSel →
      restoreSelection tracks' (tracks.map Track.selected) = tracks := by
  induction tracks with
  | nil =>
      intro tracks' h
      cases tracks' with
      | nil => rfl
      | cons b m => simp at h
  | cons a l ih =>
      intro tracks' h
      cases tracks' with
      | nil => simp at h
      | cons b m =>
          simp only [List.map_cons, List.cons.injEq] at h
          obtain ⟨h1, h2⟩ := h
          simp only [List.map_cons, restoreSelection, ih m h2,
            List.cons.injEq, and_true]
          cases a with
          | mk aid alead agrp asel =>
              cases b with
              | mk bid blead bgrp bsel =>
                  simp only [eraseSel, Track.mk.injEq, and_true] at h1
                  simp only [Track.mk.injEq, and_true]
                  exact ⟨h1.1, h1.2.1, h1.2.2⟩

lemma find?_id_map_eraseSel (aid : Nat) :
    ∀ l l' : TrackList, l.map eraseSel = l'.map eraseSel →
      (l.find? fun t => t.id == aid).map eraseSel
        = (l'.find? fun t => t.id == aid).map eraseSel := by
  intro l
  induction l with
  | nil =>
      intro l' h
      cases l' with
      | nil => rfl
      | cons b m => simp at h
  | cons a l ih =>
      intro l' h
      cases l' with
      | nil => simp at h
      | cons b m =>
          simp only [List.map_cons, List.cons.injEq] at h
          obtain ⟨h1, h2⟩ := h
          have hid : a.id = b.id := by
            have h3 := congrArg Track.id h1
            exact h3
          by_cases hp : (a.id == aid) = true
          · rw [List.find?_cons_of_pos (p := fun (t : Track) => t.id == aid) _ hp,
              List.find?_cons_of_pos (p := fun (t : Track) => t.id == aid) _
                (show (b.id == aid) = true by rw [← hid]; exact hp)]
            show some (eraseSel a) = some (eraseSel b)
            rw [h1]
          · rw [List.find?_cons_of_neg (p := fun (t : Track) => t.id == aid) _ hp,
              List.find?_cons_of_neg (p := fun (t : Track) => t.id == aid) _
                (show ¬(b.id == aid) = true by rw [← hid]; exact hp)]
            exact ih m h2

/-- The invariant of `SelectionState::mLastPickedTrack` stated in
`SelectionState.h`: the reference is expired, or the referenced live
track is a leader. -/
def LastPickedInv (st : SelectionState) (tracks : TrackList) : Prop :=
  ∀ t, resolveLastPicked st tracks = some t → t.leader = true

lemma lastPickedInv_of_sameShape {st st' : SelectionState}
    {l l' : TrackList}
    (hst : st'.mLastPickedTrack = st.mLastPickedTrack)
    (h : l'.map eraseSel = l.map eraseSel)
    (hI : LastPickedInv st l) : LastPickedInv st' l' := by
  intro t ht
  unfold resolveLastPicked at ht
  rw [hst, Option.bind_eq_some] at ht
  obtain ⟨aid, ha, hf⟩ := ht
  have hh := find?_id_map_eraseSel aid l' l h
  rw [hf] at hh
  cases hf2 : l.find? (fun t => t.id == aid) with
  | none => rw [hf2] at hh; simp at hh
  | some t0 =>
      rw [hf2] at hh
      simp at hh
      have h0 : t0.leader = true := by
        apply hI t0
        unfold resolveLastPicked
        rw [ha, Option.some_bind]
        exact hf2
      have h4 : t.leader = t0.leader := by
        have h3 := congrArg Track.leader hh
        exact h3
      rw [h4]; exact h0

/-- Every track of the list carrying identity `i` is a leader (the form
in which object identity of the clicked leader track reaches the
resolution of the last-picked reference in this embedding). -/
def LeaderAt (tracks : TrackList) (i : Nat) : Prop :=
  ∀ a ∈ tracks, a.id = i → a.leader = true

lemma leaderAt_of_nodup {tracks : TrackList} {track : Track}
    (hnd : (tracks.map Track.id).Nodup) (hmem : track ∈ tracks)
    (hl : track.leader = true) : LeaderAt tracks track.id := by
  intro a ha hid
  have := List.inj_on_of_nodup_map hnd ha hmem hid
  rw [this]; exact hl

lemma leaderAt_of_sameShape {l l' : TrackList} {i : Nat}
    (h : l'.map eraseSel = l.map eraseSel) (hLA : LeaderAt l i) :
    LeaderAt l' i := by
  intro a ha hid
  have hmem : eraseSel a ∈ l.map eraseSel := by
    rw [← h]; exact List.mem_map_of_mem _ ha
  rw [List.mem_map] at hmem
  obtain ⟨b, hb, he⟩ := hmem
  have hidb : b.id = a.id := by
    have h3 := congrArg Track.id he
    exact h3
  have hlead : b.leader = a.leader := by
    have h3 := congrArg Track.leader he
    exact h3
  rw [← hlead]
  exact hLA b hb (by rw [hidb]; exact hid)

lemma selIf_id (track : Track) (v : Bool) (a : Track) :
    (if (a.group == track.group) = true
      then { a with selected := v } else a).id = a.id := by
  split <;> rfl

lemma selIf_leader (track : Track) (v : Bool) (a : Track) :
    (if (a.group == track.group) = true
      then { a with selected := v } else a).leader = a.leader := by
  split <;> rfl

lemma selectTrack_inv (st : SelectionState) (tracks : TrackList)
    (track : Track) (v u : Bool)
    (hLA : LeaderAt tracks track.id) (hI : LastPickedInv st tracks) :
    LastPickedInv (SelectionState.SelectTrack st tracks track v u).1
        (SelectionState.SelectTrack st tracks track v u).2 := by
  by_cases hc : (u && v) = true
  · have h1 : (SelectionState.SelectTrack st tracks track v u).1
        = { mLastPickedTrack := some track.id } := by
      unfold SelectionState.SelectTrack
      rw [if_pos hc]
    intro t ht
    rw [h1] at ht
    unfold resolveLastPicked at ht
    rw [Option.some_bind] at ht
    have hmem := List.mem_of_find?_eq_some ht
    have hp := List.find?_some ht
    unfold SelectionState.SelectTrack at hmem
    simp only [List.mem_map] at hmem
    obtain ⟨a, ha, hfa⟩ := hmem
    have htid : t.id = track.id := by simpa using hp
    have h4 : a.id = t.id := by
      rw [← hfa]; exact (selIf_id track v a).symm
    have h5 : t.leader = a.leader := by
      rw [← hfa]; exact selIf_leader track v a
    rw [h5]
    exact hLA a ha (h4.trans htid)
  · have h1 : (SelectionState.SelectTrack st tracks track v u).1 = st := by
      unfold SelectionState.SelectTrack
      rw [if_neg hc]
    apply @lastPickedInv_of_sameShape st _ tracks _
    · rw [h1]
    · exact sameShape_selectTrack st tracks track v u
    · exact hI

lemma selectNone_congr (st st' : SelectionState) {l l' : TrackList}
    (h : l'.map eraseSel = l.map eraseSel) :
    (SelectionState.SelectNone st' l').2 = (SelectionState.SelectNone st l).2 :=
  h

lemma shiftClick_inv (st : SelectionState) (tracks : TrackList)
    (track : Track)
    (hLA : LeaderAt tracks track.id) (hI : LastPickedInv st tracks) :
    LastPickedInv (SelectionState.ChangeSelectionOnShiftClick st tracks track).1
        (SelectionState.ChangeSelectionOnShiftClick st tracks track).2 := by
  unfold SelectionState.ChangeSelectionOnShiftClick
  cases hr : resolveLastPicked st tracks with
  | some last =>
      simp only
      apply @lastPickedInv_of_sameShape st _ tracks _ rfl ?_ hI
      rw [sameShape_selectRange, sameShape_selectNone]
  | none =>
      simp only
      apply selectTrack_inv
      · exact leaderAt_of_sameShape (sameShape_selectNone st tracks) hLA
      · exact lastPickedInv_of_sameShape rfl (sameShape_selectNone st tracks) hI

lemma listSelection_inv (st : SelectionState) (tracks : TrackList)
    (track : Track) (sh c sl : Bool)
    (hLA : LeaderAt tracks track.id) (hI : LastPickedInv st tracks) :
    LastPickedInv
        (SelectionState.HandleListSelection st tracks track sh c sl).1
        (SelectionState.HandleListSelection st tracks track sh c sl).2 := by
  unfold SelectionState.HandleListSelection
  by_cases hsh : sh = true
  · rw [if_pos hsh]
    exact shiftClick_inv st tracks track hLA hI
  · rw [if_neg hsh]
    by_cases hc : c = true
    · rw [if_pos hc]
      exact selectTrack_inv st tracks track _ _ hLA hI
    · rw [if_neg hc]
      apply selectTrack_inv
      · exact leaderAt_of_sameShape (sameShape_selectNone st tracks) hLA
      · exact lastPickedInv_of_sameShape rfl (sameShape_selectNone st tracks) hI

lemma lastPickedInv_none (tracks : TrackList) :
    LastPickedInv { mLastPickedTrack := none } tracks :=
  fun _ ht => nomatch ht

/-- Claim C1: for any `SelectionStateChanger` constructed over a
`SelectionState` and a `TrackList`, if any sequence of selection
mutations is performed and `Commit()` is never called, then after the
destructor runs every track's selected flag and the resolved
`lastPickedTrack` are identical to their values at construction time (no
tracks are added or removed by selection mutations). -/
theorem C1_rollback_restores_snapshot (st : SelectionState)
    (tracks : TrackList) (ops : List SelOp) :
    ((SelectionStateChanger.make st tracks).destruct
        (applyOps ops (st, tracks)).1 (applyOps ops (st, tracks)).2).2.map
          Track.selected
      = tracks.map Track.selected ∧
    resolveLastPicked
        ((SelectionStateChanger.make st tracks).destruct
          (applyOps ops (st, tracks)).1 (applyOps ops (st, tracks)).2).1
        ((SelectionStateChanger.make st tracks).destruct
          (applyOps ops (st, tracks)).1 (applyOps ops (st, tracks)).2).2
      = resolveLastPicked st tracks := by
  have hfin : (SelectionStateChanger.make st tracks).destruct
      (applyOps ops (st, tracks)).1 (applyOps ops (st, tracks)).2
      = ({ mLastPickedTrack := st.mLastPickedTrack },
         restoreSelection (applyOps ops (st, tracks)).2
           (tracks.map Track.selected)) := rfl
  have h2 : ((SelectionStateChanger.make st tracks).destruct
      (applyOps ops (st, tracks)).1 (applyOps ops (st, tracks)).2).2
      = tracks := by
    rw [hfin]
    exact restoreSelection_restores tracks (applyOps ops (st, tracks)).2
      (sameShape_applyOps ops (st, tracks))
  have h1 : ((SelectionStateChanger.make st tracks).destruct
      (applyOps ops (st, tracks)).1 (applyOps ops (st, tracks)).2).1
      = { mLastPickedTrack := st.mLastPickedTrack } := by rw [hfin]
  refine ⟨by rw [h2], ?_⟩
  rw [h1, h2]

/-- Claim C2: for every leader track and boolean `v`, after
`SelectTrack(track, v, _)` every track of `track`'s linked group
(`track` itself included) has `selected = v`: selection is set
group-wide, not only on the leader. -/
theorem C2_selectTrack_selects_group (st : SelectionState)
    (tracks : TrackList) (track : Track) (v u : Bool)
    (hl : track.leader = true) (hm : track ∈ tracks) :
    ∀ t ∈ (SelectionState.SelectTrack st tracks track v u).2,
      t.group = track.group → t.selected = v := by
  intro t ht hg
  unfold SelectionState.SelectTrack at ht
  simp only [List.mem_map] at ht
  obtain ⟨a, ha, hfa⟩ := ht
  by_cases hc : (a.group == track.group) = true
  · rw [← hfa, if_pos hc]
  · exfalso
    rw [← hfa, if_neg hc] at hg
    exact hc (by simpa using hg)

/-- Concrete tracks and states used to instantiate the hypotheses of the
claim theorems (the four-track scenario of the spec: `wT2` and `wT3`
form one linked group with `wT2` as leader). -/
def wT1 : Track := { id := 1, leader := true, group := 1, selected := false }

def wT2 : Track := { id := 2, leader := true, group := 2, selected := false }

def wT3 : Track := { id := 3, leader := false, group := 2, selected := false }

def wT4 : Track := { id := 4, leader := true, group := 4, selected := false }

def wTracks : TrackList := [wT1, wT2, wT3, wT4]

def wStNone : SelectionState := { mLastPickedTrack := none }

def wStA : SelectionState := { mLastPickedTrack := some 1 }

/-- Witness for C2 at a concrete input. -/
theorem C2_selectTrack_selects_group_witness :
    wT2.leader = true ∧ wT2 ∈ wTracks ∧
    (∀ t ∈ (SelectionState.SelectTrack wStNone wTracks wT2 true false).2,
      t.group = wT2.group → t.selected = true) :=
  ⟨rfl, by decide,
    C2_selectTrack_selects_group wStNone wTracks wT2 true false rfl (by decide)⟩

/-- Claim C6: committing then destructing a `SelectionStateChanger`
changes nothing (the destructor performs no rollback), and a second
`Commit()` has no additional effect. -/
theorem C6_commit_then_destruct_is_noop (ch : SelectionStateChanger)
    (st : SelectionState) (tracks : TrackList) :
    (ch.Commit).destruct st tracks = (st, tracks) ∧
    ch.Commit.Commit = ch.Commit :=
  ⟨rfl, rfl⟩

/-- Claim C8: `SelectNone` deselects every track and modifies nothing
else of the selection state; in particular `lastPickedTrack` is exactly
what it was before the call. -/
theorem C8_selectNone_deselects_all (st : SelectionState)
    (tracks : TrackList) :
    (SelectionState.SelectNone st tracks).1 = st ∧
    ∀ t ∈ (SelectionState.SelectNone st tracks).2, t.selected = false := by
  refine ⟨rfl, ?_⟩
  intro t ht
  simp only [SelectionState.SelectNone, List.mem_map] at ht
  obtain ⟨a, _, hfa⟩ := ht
  rw [← hfa]

/-- Claim C4: `SelectRangeOfTracks` is symmetric in its two track
arguments: the two ends may be given in either order and the resulting
state is identical. -/
theorem C4_selectRange_symmetric (st : SelectionState) (tracks : TrackList)
    (a b : Track) (ha : a ∈ tracks) (hb : b ∈ tracks) :
    SelectionState.SelectRangeOfTracks st tracks a b
      = SelectionState.SelectRangeOfTracks st tracks b a := by
  unfold SelectionState.SelectRangeOfTracks
  rw [Nat.min_comm, Nat.max_comm]

/-- Witness for C4 at a concrete input. -/
theorem C4_selectRange_symmetric_witness :
    wT1 ∈ wTracks ∧ wT4 ∈ wTracks ∧
    SelectionState.SelectRangeOfTracks wStNone wTracks wT1 wT4
      = SelectionState.SelectRangeOfTracks wStNone wTracks wT4 wT1 :=
  ⟨by decide, by decide,
    C4_selectRange_symmetric wStNone wTracks wT1 wT4 (by decide) (by decide)⟩

lemma selectTrack_map_selected (st : SelectionState) (l : TrackList)
    (track : Track) (v u : Bool) :
    ((SelectionState.SelectTrack st l track v u).2).map Track.selected
      = l.map fun t => if t.group == track.group then v else t.selected := by
  induction l with
  | nil => rfl
  | cons a l ih =>
      simp only [SelectionState.SelectTrack, List.map_cons,
        List.cons.injEq] at ih ⊢
      constructor
      · by_cases hc : (a.group == track.group) = true
        · rw [if_pos hc, if_pos hc]
        · rw [if_neg hc, if_neg hc]
      · exact ih

/-- Claim C7: when the last-picked reference is empty or its referent
destroyed, `ChangeSelectionOnShiftClick` does not fault; it degrades to
plain-click behaviour, selecting exactly the clicked track's group and
making the clicked track the new last-picked track. -/
theorem C7_shiftClick_degrades_to_plain_click (st : SelectionState)
    (tracks : TrackList) (track : Track)
    (h : resolveLastPicked st tracks = none) :
    (SelectionState.ChangeSelectionOnShiftClick st tracks track).1
        = { mLastPickedTrack := some track.id } ∧
    (SelectionState.ChangeSelectionOnShiftClick st tracks track).2.map
        Track.selected
      = tracks.map fun t => t.group == track.group := by
  unfold SelectionState.ChangeSelectionOnShiftClick
  rw [h]
  refine ⟨rfl, ?_⟩
  show ((SelectionState.SelectTrack st
      (SelectionState.SelectNone st tracks).2 track true true).2).map
        Track.selected = _
  rw [selectTrack_map_selected]
  show ((tracks.map eraseSel).map fun t =>
      if t.group == track.group then true else t.selected) = _
  rw [List.map_map]
  have hfun : ((fun t =>
        if t.group == track.group then true else t.selected) ∘ eraseSel)
      = fun t : Track => (t.group == track.group : Bool) := by
    funext t
    show (if t.group == track.group then true else false)
        = (t.group == track.group : Bool)
    by_cases hc : (t.group == track.group) = true
    · rw [if_pos hc, hc]
    · rw [if_neg hc]
      exact (Bool.eq_false_iff.mpr hc).symm
  rw [hfun]

/-- Witness for C7 at a concrete input. -/
theorem C7_shiftClick_degrades_to_plain_click_witness :
    resolveLastPicked wStNone wTracks = none ∧
    ((SelectionState.ChangeSelectionOnShiftClick wStNone wTracks wT2).1
        = { mLastPickedTrack := some wT2.id } ∧
      (SelectionState.ChangeSelectionOnShiftClick wStNone wTracks wT2).2.map
          Track.selected
        = wTracks.map fun t => t.group == wT2.group) :=
  ⟨rfl, C7_shiftClick_degrades_to_plain_click wStNone wTracks wT2 rfl⟩

/-- Claim C3: when the last-picked reference resolves to a live track
`A`, a shift-click on `B` produces exactly the state of `SelectNone`
followed by `SelectRangeOfTracks(tracks, A, B)` and leaves the
last-picked reference equal to `A`; hence two successive shift-clicks on
`B` then `C` (no intervening plain click) end with the selection of
`SelectRangeOfTracks(tracks, A, C)`, anchored at the original `A`. -/
theorem C3_shiftClick_extends_from_original_anchor (st : SelectionState)
    (tracks : TrackList) (A B C : Track)
    (hA : resolveLastPicked st tracks = some A) :
    SelectionState.ChangeSelectionOnShiftClick st tracks B
      = (st, (SelectionState.SelectRangeOfTracks st
          (SelectionState.SelectNone st tracks).2 A B).2) ∧
    SelectionState.ChangeSelectionOnShiftClick
        (SelectionState.ChangeSelectionOnShiftClick st tracks B).1
        (SelectionState.ChangeSelectionOnShiftClick st tracks B).2 C
      = (st, (SelectionState.SelectRangeOfTracks st
          (SelectionState.SelectNone st tracks).2 A C).2) := by
  have hp1 : SelectionState.ChangeSelectionOnShiftClick st tracks B
      = (st, (SelectionState.SelectRangeOfTracks st
          (SelectionState.SelectNone st tracks).2 A B).2) := by
    unfold SelectionState.ChangeSelectionOnShiftClick
    rw [hA]
    rfl
  refine ⟨hp1, ?_⟩
  rw [hp1]
  show SelectionState.ChangeSelectionOnShiftClick st
      ((SelectionState.SelectRangeOfTracks st
        (SelectionState.SelectNone st tracks).2 A B).2) C
    = _
  unfold resolveLastPicked at hA
  rw [Option.bind_eq_some] at hA
  obtain ⟨aid, ha, hf⟩ := hA
  have hshape : ((SelectionState.SelectRangeOfTracks st
      (SelectionState.SelectNone st tracks).2 A B).2).map eraseSel
      = tracks.map eraseSel := by
    rw [sameShape_selectRange, sameShape_selectNone]
  have hh := find?_id_map_eraseSel aid
    ((SelectionState.SelectRangeOfTracks st
      (SelectionState.SelectNone st tracks).2 A B).2) tracks hshape
  rw [hf] at hh
  cases hft : ((SelectionState.SelectRangeOfTracks st
      (SelectionState.SelectNone st tracks).2 A B).2).find?
        (fun t => t.id == aid) with
  | none => rw [hft] at hh; simp at hh
  | some A2 =>
      rw [hft] at hh
      simp only [Option.map_some', Option.some.injEq] at hh
      have hid : A2.id = A.id := by
        have h3 := congrArg Track.id hh
        exact h3
      have hres : resolveLastPicked st
          ((SelectionState.SelectRangeOfTracks st
            (SelectionState.SelectNone st tracks).2 A B).2) = some A2 := by
        unfold resolveLastPicked
        rw [ha, Option.some_bind]
        exact hft
      unfold SelectionState.ChangeSelectionOnShiftClick
      rw [hres]
      show SelectionState.SelectRangeOfTracks st
          (SelectionState.SelectNone st
            ((SelectionState.SelectRangeOfTracks st
              (SelectionState.SelectNone st tracks).2 A B).2)).2 A2 C
        = _
      rw [selectNone_congr st st hshape]
      unfold SelectionState.SelectRangeOfTracks
      rw [hid]

/-- Witness for C3 at a concrete input. -/
theorem C3_shiftClick_extends_from_original_anchor_witness :
    resolveLastPicked wStA wTracks = some wT1 ∧
    (SelectionState.ChangeSelectionOnShiftClick wStA wTracks wT2
        = (wStA, (SelectionState.SelectRangeOfTracks wStA
            (SelectionState.SelectNone wStA wTracks).2 wT1 wT2).2) ∧
      SelectionState.ChangeSelectionOnShiftClick
          (SelectionState.ChangeSelectionOnShiftClick wStA wTracks wT2).1
          (SelectionState.ChangeSelectionOnShiftClick wStA wTracks wT2).2 wT4
        = (wStA, (SelectionState.SelectRangeOfTracks wStA
            (SelectionState.SelectNone wStA wTracks).2 wT1 wT4).2)) :=
  ⟨by decide,
    C3_shiftClick_extends_from_original_anchor wStA wTracks wT1 wT2 wT4
      (by decide)⟩

/-- Concrete tracks for the C5 counterexample: `cB` leads the linked
group of `cB` and `cB2`, and `cB2` sits after the positional range. -/
def cA : Track := { id := 10, leader := true, group := 10, selected := false }

def cB : Track := { id := 11, leader := true, group := 11, selected := false }

def cB2 : Track :=
  { id := 12, leader := false, group := 11, selected := false }

def cTracks : TrackList := [cA, cB, cB2]

/-- Counterexample to claim C5 as stated: in `[cA, cB, cB2]` the
inclusive positional range determined by `cA` and `cB` is `0..1`, yet
the call changes the selected flag of the track at position `2` (`cB2`,
a non-leader member of `cB`'s linked group) from `false` to `true`:
a track positioned outside the inclusive range does not keep its
selected flag unchanged. -/
theorem C5_counterexample_follower_outside_range :
    min (indexOfId cTracks cA.id) (indexOfId cTracks cB.id) = 0 ∧
    max (indexOfId cTracks cA.id) (indexOfId cTracks cB.id) = 1 ∧
    cTracks[2]? = some cB2 ∧
    cB2.selected = false ∧
    ((SelectionState.SelectRangeOfTracks wStNone cTracks cA cB).2)[2]?
      = some { cB2 with selected := true } := by
  decide

/-- Claim C5 as amended: `SelectRangeOfTracks` is additive — every track
selected before the call remains selected afterward, wherever it lies —
and every track whose linked group contains no leader positioned within
the inclusive range is left entirely unchanged.  (As stated the claim
fails: a non-leader group member positioned outside the range is still
selected when its leader lies inside the range.) -/
theorem C5_selectRange_additive_amended (st : SelectionState)
    (tracks : TrackList) (sT eT : Track) (i : Nat) (t : Track)
    (ht : tracks[i]? = some t) :
    (t.selected = true →
      ∃ t', ((SelectionState.SelectRangeOfTracks st tracks sT eT).2)[i]?
          = some t' ∧ t'.selected = true) ∧
    (inRangeGroup tracks
        (min (indexOfId tracks sT.id) (indexOfId tracks eT.id))
        (max (indexOfId tracks sT.id) (indexOfId tracks eT.id))
        t.group = false →
      ((SelectionState.SelectRangeOfTracks st tracks sT eT).2)[i]?
        = some t) := by
  have hmap : ((SelectionState.SelectRangeOfTracks st tracks sT eT).2)[i]?
      = (tracks[i]?).map fun t =>
          if inRangeGroup tracks
              (min (indexOfId tracks sT.id) (indexOfId tracks eT.id))
              (max (indexOfId tracks sT.id) (indexOfId tracks eT.id))
              t.group
          then { t with selected := true } else t :=
    List.getElem?_map _ _ _
  rw [ht] at hmap
  simp only [Option.map_some'] at hmap
  constructor
  · intro hsel
    by_cases hc : inRangeGroup tracks
        (min (indexOfId tracks sT.id) (indexOfId tracks eT.id))
        (max (indexOfId tracks sT.id) (indexOfId tracks eT.id))
        t.group = true
    · exact ⟨{ t with selected := true }, by rw [hmap, if_pos hc], rfl⟩
    · exact ⟨t, by rw [hmap, if_neg hc], hsel⟩
  · intro hout
    rw [hmap, if_neg (by simp [hout])]

/-- Witness for the amended C5 at a concrete input. -/
theorem C5_selectRange_additive_amended_witness :
    cTracks[0]? = some cA ∧
    ((cA.selected = true →
        ∃ t', ((SelectionState.SelectRangeOfTracks wStNone cTracks cB cB).2)[0]?
            = some t' ∧ t'.selected = true) ∧
      (inRangeGroup cTracks
          (min (indexOfId cTracks cB.id) (indexOfId cTracks cB.id))
          (max (indexOfId cTracks cB.id) (indexOfId cTracks cB.id))
          cA.group = false →
        ((SelectionState.SelectRangeOfTracks wStNone cTracks cB cB).2)[0]?
          = some cA)) :=
  ⟨by decide,
    C5_selectRange_additive_amended wStNone cTracks cB cB 0 cA (by decide)⟩

/-- Claim C9: every `SelectionState` operation preserves the documented
invariant of `mLastPickedTrack`: the reference is empty or expired, or
it resolves to a live leader track.  The clicked track is required to be
a leader (header precondition) and track identities are assumed unique
(object identity of the C++ tracks). -/
theorem C9_operations_preserve_lastPicked_invariant (st : SelectionState)
    (tracks : TrackList) (track sT eT : Track) (v u sh c sl : Bool)
    (hnd : (tracks.map Track.id).Nodup) (hmem : track ∈ tracks)
    (hlead : track.leader = true) (hI : LastPickedInv st tracks) :
    LastPickedInv (SelectionState.SelectTrack st tracks track v u).1
        (SelectionState.SelectTrack st tracks track v u).2 ∧
    LastPickedInv (SelectionState.SelectRangeOfTracks st tracks sT eT).1
        (SelectionState.SelectRangeOfTracks st tracks sT eT).2 ∧
    LastPickedInv (SelectionState.SelectNone st tracks).1
        (SelectionState.SelectNone st tracks).2 ∧
    LastPickedInv
        (SelectionState.ChangeSelectionOnShiftClick st tracks track).1
        (SelectionState.ChangeSelectionOnShiftClick st tracks track).2 ∧
    LastPickedInv
        (SelectionState.HandleListSelection st tracks track sh c sl).1
        (SelectionState.HandleListSelection st tracks track sh c sl).2 := by
  have hLA := leaderAt_of_nodup hnd hmem hlead
  refine ⟨selectTrack_inv st tracks track v u hLA hI, ?_, ?_,
    shiftClick_inv st tracks track hLA hI,
    listSelection_inv st tracks track sh c sl hLA hI⟩
  · exact lastPickedInv_of_sameShape rfl
      (sameShape_selectRange st tracks sT eT) hI
  · exact lastPickedInv_of_sameShape rfl
      (sameShape_selectNone st tracks) hI

lemma lastPickedInv_wStA : LastPickedInv wStA wTracks := by
  intro t ht
  have h2 : resolveLastPicked wStA wTracks = some wT1 := by decide
  rw [h2] at ht
  injection ht with h3
  rw [← h3]
  rfl

/-- Witness for C9 at a concrete input. -/
theorem C9_operations_preserve_lastPicked_invariant_witness :
    (wTracks.map Track.id).Nodup ∧ wT2 ∈ wTracks ∧ wT2.leader = true ∧
    LastPickedInv wStA wTracks ∧
    (LastPickedInv (SelectionState.SelectTrack wStA wTracks wT2 true true).1
        (SelectionState.SelectTrack wStA wTracks wT2 true true).2 ∧
      LastPickedInv
          (SelectionState.SelectRangeOfTracks wStA wTracks wT1 wT4).1
          (SelectionState.SelectRangeOfTracks wStA wTracks wT1 wT4).2 ∧
      LastPickedInv (SelectionState.SelectNone wStA wTracks).1
          (SelectionState.SelectNone wStA wTracks).2 ∧
      LastPickedInv
          (SelectionState.ChangeSelectionOnShiftClick wStA wTracks wT2).1
          (SelectionState.ChangeSelectionOnShiftClick wStA wTracks wT2).2 ∧
      LastPickedInv
          (SelectionState.HandleListSelection wStA wTracks wT2 false true
            false).1
          (SelectionState.HandleListSelection wStA wTracks wT2 false true
            false).2) :=
  ⟨by decide, by decide, rfl, lastPickedInv_wStA,
    C9_operations_preserve_lastPicked_invariant wStA wTracks wT2 wT1 wT4
      true true false true false (by decide) (by decide) rfl
      lastPickedInv_wStA⟩

lemma visitTrack_fallthrough (ps : GenParams) (k : Nat) (t : GTrack)
    (hsel : (t.isWave && t.selected) = false) :
    (visitTrack ps k t).1
      = if t.syncLockSel then { t with content := ps.syncAdjContent t.content }
        else t := by
  unfold visitTrack
  rw [if_neg (show ¬(t.isWave && t.selected) = true by
    rw [hsel]; exact Bool.false_ne_true)]

lemma processTracks_getElem? (ps : GenParams) :
    ∀ (ts : List GTrack) (good : Bool) (n i : Nat),
      (processTracks ps ts good n).1[i]? = ts[i]? ∨
      ∃ k, (processTracks ps ts good n).1[i]?
        = (ts[i]?).map fun t => (visitTrack ps k t).1 := by
  intro ts
  induction ts with
  | nil => intro good n i; left; rfl
  | cons t rest ih =>
      intro good n i
      by_cases hg : good = true
      · have hred : processTracks ps (t :: rest) good n
            = ((visitTrack ps n t).1 ::
                (processTracks ps rest (visitTrack ps n t).2.1
                  (visitTrack ps n t).2.2).1,
               (processTracks ps rest (visitTrack ps n t).2.1
                  (visitTrack ps n t).2.2).2) := by
          simp only [processTracks]
          rw [if_pos hg]
        rw [hred]
        cases i with
        | zero =>
            refine Or.inr ⟨n, ?_⟩
            simp only [List.getElem?_cons_zero, Option.map_some']
        | succ j =>
            simp only [List.getElem?_cons_succ]
            exact ih (visitTrack ps n t).2.1 (visitTrack ps n t).2.2 j
      · have hred : processTracks ps (t :: rest) good n = (t :: rest, good) := by
          simp only [processTracks]
          rw [if_neg hg]
        rw [hred]
        left
        rfl

/-- Claim C10: `Generator::Process` modifies the audio content only of
wave tracks whose selected flag is true; a track that is not a selected
wave track (in particular a wave track with `GetSelected() == false`)
falls through the generation branch untouched — its only possible
mutation is the sync-lock adjustment applied when it is sync-lock
selected. -/
theorem C10_generator_leaves_unselected_wave_tracks (ps : GenParams)
    (tracks : List GTrack) (i : Nat) (t : GTrack)
    (ht : tracks[i]? = some t) (hsel : (t.isWave && t.selected) = false) :
    (Generator.Process ps tracks).1[i]? = some t ∨
    (t.syncLockSel = true ∧
      (Generator.Process ps tracks).1[i]?
        = some { t with content := ps.syncAdjContent t.content }) := by
  have hproc : (Generator.Process ps tracks).1
      = if (processTracks ps tracks true 0).2 = true
        then (processTracks ps tracks true 0).1 else tracks := rfl
  by_cases hg : (processTracks ps tracks true 0).2 = true
  · rw [hproc, if_pos hg]
    cases processTracks_getElem? ps tracks true 0 i with
    | inl h => left; rw [h]; exact ht
    | inr h =>
        obtain ⟨k, hk⟩ := h
        rw [hk, ht]
        simp only [Option.map_some']
        rw [visitTrack_fallthrough ps k t hsel]
        by_cases hsl : t.syncLockSel = true
        · exact Or.inr ⟨hsl, by rw [if_pos hsl]⟩
        · left
          rw [if_neg hsl]
  · rw [hproc, if_neg hg]
    left
    exact ht

/-- Concrete generator input for witness instantiation: the second track
is an unselected wave track that is sync-lock selected. -/
def wPs : GenParams :=
  { editClipCanMove := true
    durationPos := true
    roomFail := fun _ => false
    genOk := fun _ _ => true
    genContent := fun _ _ => 100
    clearContent := fun c => c
    syncAdjContent := fun c => c + 1 }

def wGT1 : GTrack :=
  { isWave := true, selected := true, syncLockSel := false, content := 0 }

def wGT2 : GTrack :=
  { isWave := true, selected := false, syncLockSel := true, content := 5 }

def wGT3 : GTrack :=
  { isWave := false, selected := false, syncLockSel := false, content := 7 }

def wGTracks : List GTrack := [wGT1, wGT2, wGT3]

/-- Witness for C10 at a concrete input. -/
theorem C10_generator_leaves_unselected_wave_tracks_witness :
    wGTracks[1]? = some wGT2 ∧ (wGT2.isWave && wGT2.selected) = false ∧
    ((Generator.Process wPs wGTracks).1[1]? = some wGT2 ∨
      (wGT2.syncLockSel = true ∧
        (Generator.Process wPs wGTracks).1[1]?
          = some { wGT2 with content := wPs.syncAdjContent wGT2.content })) :=
  ⟨rfl, rfl,
    C10_generator_leaves_unselected_wave_tracks wPs wGTracks 1 wGT2 rfl rfl⟩
